import Mathlib

/-!
Shallow embedding of the Snake game's core logic (`src/game.ts`, i.e.
`src/unnamed/part_001`, together with the state handling in
`src/SnakeGame.tsx`) and proofs of the behavioural claims about it.

JS `number` values that the game uses are always integers (grid
coordinates, scores, millisecond intervals scaled by exact factors), so
coordinates are modelled as `ℤ` and the tick interval as `ℚ`.
The `Math.random()` stream is modelled as an explicit list of drawn
points, and the `while (true)` retry loop of `randPointExcluding`
consumes that list; a JS exception is an `Except.error`.
-/

namespace Snake

/-- `type Point = [number, number]` — an ordered pair of integer grid
coordinates `(row, col)`. -/
abbrev Point := ℤ × ℤ

/-- `type Direction = 'RIGHT' | 'LEFT' | 'UP' | 'DOWN'`. -/
inductive Direction where
  | RIGHT
  | LEFT
  | UP
  | DOWN
deriving DecidableEq, Repr

/-- `const CLASSIC_GRID = 10`. -/
def CLASSIC_GRID : ℕ := 10

/-- `const LARGE_GRID = 20`. -/
def LARGE_GRID : ℕ := 20

/-- The character for a single decimal digit, as JS number-to-string
produces it. -/
def digitChar : ℕ → Char
  | 0 => '0'
  | 1 => '1'
  | 2 => '2'
  | 3 => '3'
  | 4 => '4'
  | 5 => '5'
  | 6 => '6'
  | 7 => '7'
  | 8 => '8'
  | 9 => '9'
  | _ => '*'

/-- Little-endian decimal digits of `n` as characters, with explicit fuel
(`n` itself is always enough fuel). -/
def natDigitsLE : ℕ → ℕ → List Char
  | 0, _ => []
  | _ + 1, 0 => []
  | fuel + 1, n + 1 =>
      digitChar ((n + 1) % 10) :: natDigitsLE fuel ((n + 1) / 10)

/-- Decimal string (as a character list) of a natural number, exactly as
JS template interpolation `${n}` renders a non-negative integer. -/
def natRepr (n : ℕ) : List Char :=
  if n = 0 then ['0'] else (natDigitsLE n n).reverse

/-- Decimal string (as a character list) of an integer, exactly as JS
template interpolation `${a}` renders an integer (a leading `-` for
negative values). -/
def intRepr (a : ℤ) : List Char :=
  if a < 0 then '-' :: natRepr a.natAbs else natRepr a.toNat

/-- `const keyOf = (p: Point) => `${p[0]},${p[1]}`` — the stable string
key used for Set membership tests. -/
def keyOf (p : Point) : String :=
  String.mk (intRepr p.1 ++ ',' :: intRepr p.2)

/-- The retry loop of `randPointExcluding`: take draws from the random
stream until one is outside the excluded key set.  An exhausted model
stream is reported as an error (the real loop would keep drawing). -/
def randLoop (exclude : Finset String) : List Point → Except String Point
  | [] => Except.error "random stream exhausted"
  | p :: rest =>
      if keyOf p ∈ exclude then randLoop exclude rest else Except.ok p

/-- `function randPointExcluding(exclude, gridSize)`: throws when
`exclude.size >= gridSize * gridSize`, otherwise draws random points
until one is not excluded. -/
def randPointExcluding (exclude : Finset String) (gridSize : ℕ)
    (draws : List Point) : Except String Point :=
  if gridSize * gridSize ≤ exclude.card then
    Except.error "No available points to place food"
  else randLoop exclude draws

/-- The unwrapped candidate head: one cell from `head` in direction
`dir` (rows grow downwards, as in the source). -/
def moveRaw (head : Point) : Direction → Point
  | Direction.RIGHT => (head.1, head.2 + 1)
  | Direction.LEFT => (head.1, head.2 - 1)
  | Direction.UP => (head.1 - 1, head.2)
  | Direction.DOWN => (head.1 + 1, head.2)

/-- The toroidal wrap applied to one coordinate:
`if (c < 0) c = gridSize - 1; else if (c >= gridSize) c = 0;`. -/
def wrapCoord (gridSize c : ℤ) : ℤ :=
  if c < 0 then gridSize - 1 else if gridSize ≤ c then 0 else c

/-- The toroidal wrap applied to both coordinates of a point. -/
def wrapPoint (gridSize : ℤ) (p : Point) : Point :=
  (wrapCoord gridSize p.1, wrapCoord gridSize p.2)

/-- The wrapped candidate head produced for a given current head. -/
def stepHead (head : Point) (dir : Direction) (gridSize : ℤ) : Point :=
  wrapPoint gridSize (moveRaw head dir)

/-- The wrapped candidate head of a step from snake `prev` (head first). -/
def newHeadOf (prev : List Point) (dir : Direction) (gridSize : ℤ) : Point :=
  stepHead prev.headI dir gridSize

/-- `willEat = newHead[0] === food[0] && newHead[1] === food[1]`. -/
def willEatOf (newHead food : Point) : Bool :=
  decide (newHead.1 = food.1 ∧ newHead.2 = food.2)

/-- `hitSelf = occupied.has(newHeadKey) && !(newHeadKey === tailKey && !willEat)`,
where `occupied` is the set of keys of the current segments. -/
def hitSelfOf (prev : List Point) (newHead tl : Point) (willEat : Bool) : Bool :=
  decide (keyOf newHead ∈ prev.map keyOf) &&
    !(decide (keyOf newHead = keyOf tl) && !willEat)

/-- The record returned by `stepSnake`. -/
structure StepResult where
  snake : List Point
  ate : Bool
  collision : Bool
deriving DecidableEq, Repr

/-- `function stepSnake(prev, dir, food, gridSize)` — advance the snake
one tick.  On an empty snake the JS code dereferences `undefined` and
throws, modelled as `none`. -/
def stepSnake (prev : List Point) (dir : Direction) (food : Point)
    (gridSize : ℤ) : Option StepResult :=
  match prev with
  | [] => none
  | head :: rest =>
      let newHead := wrapPoint gridSize (moveRaw head dir)
      let tl := (head :: rest).getLast (List.cons_ne_nil head rest)
      let willEat := willEatOf newHead food
      if hitSelfOf (head :: rest) newHead tl willEat then
        some { snake := head :: rest, ate := false, collision := true }
      else
        let newSnake := newHead :: head :: rest
        some { snake := if willEat then newSnake else newSnake.dropLast,
               ate := willEat, collision := false }

/-- The speed presets of the difficulty selector in `SnakeGame.tsx`. -/
inductive SpeedLabel where
  | slow
  | normal
  | fast
deriving DecidableEq, Repr

/-- `const SPEED_LEVELS = { slow: 300, normal: 200, fast: 120 }` —
milliseconds per tick for each preset. -/
def SPEED_LEVELS : SpeedLabel → ℚ
  | SpeedLabel.slow => 300
  | SpeedLabel.normal => 200
  | SpeedLabel.fast => 120

/-- `const INITIAL_SNAKE: Point[] = [[0, 2], [0, 1], [0, 0]]`. -/
def INITIAL_SNAKE : List Point := [(0, 2), (0, 1), (0, 0)]

/-- The per-game state that `reset` recreates in `SnakeGame.tsx`
(`snake`, `directionRef`, `score`, `gameOver`, `msPerTickRef`, `food`). -/
structure GameState where
  snake : List Point
  direction : Direction
  score : ℕ
  gameOver : Bool
  msPerTick : ℚ
  food : Except String Point

/-- The `reset` callback of `SnakeGame.tsx`: restores the initial snake,
direction `RIGHT`, score 0, clears `gameOver`, sets
`msPerTickRef.current = SPEED_LEVELS.normal`, and replaces food with
`randPointExcluding` over the initial snake's keys.  The selected speed
preset is not consulted. -/
def reset (gridSize : ℕ) (draws : List Point) : GameState :=
  { snake := INITIAL_SNAKE
    direction := Direction.RIGHT
    score := 0
    gameOver := false
    msPerTick := SPEED_LEVELS SpeedLabel.normal
    food := randPointExcluding (INITIAL_SNAKE.map keyOf).toFinset gridSize draws }

/-- The speed-up on eating in the loop driver:
`msPerTickRef.current = Math.max(40, msPerTickRef.current * 0.95)`. -/
def nextMsPerTick (ms : ℚ) : ℚ := max 40 (ms * (95 / 100))

/-- A point lies on the `gridSize × gridSize` board. -/
def inGrid (gridSize : ℤ) (p : Point) : Prop :=
  0 ≤ p.1 ∧ p.1 < gridSize ∧ 0 ≤ p.2 ∧ p.2 < gridSize

instance (gridSize : ℤ) (p : Point) : Decidable (inGrid gridSize p) := by
  unfold inGrid; infer_instance

/-- The set of all cells of a `g × g` board. -/
def gridPoints (g : ℕ) : Finset Point :=
  (Finset.range g ×ˢ Finset.range g).image fun rc => ((rc.1 : ℤ), (rc.2 : ℤ))

/-! ### Properties of the string keys -/

lemma digitChar_ne_comma_ne_dash : ∀ d, d < 10 →
    digitChar d ≠ ',' ∧ digitChar d ≠ '-' := by decide

lemma digitChar_injOn : ∀ d1, d1 < 10 → ∀ d2, d2 < 10 →
    digitChar d1 = digitChar d2 → d1 = d2 := by decide

lemma natDigitsLE_eq_digits (fuel : ℕ) : ∀ n, n ≤ fuel →
    natDigitsLE fuel n = (Nat.digits 10 n).map digitChar := by
  induction fuel with
  | zero =>
      intro n hn
      interval_cases n
      simp [natDigitsLE]
  | succ fuel ih =>
      intro n hn
      match n with
      | 0 => simp [natDigitsLE]
      | n + 1 =>
          have hdiv : (n + 1) / 10 ≤ fuel := by
            have := Nat.div_lt_self (Nat.succ_pos n) (by norm_num : 1 < 10)
            omega
          rw [natDigitsLE, Nat.digits_def' (by norm_num : 1 < 10) (Nat.succ_pos n),
            List.map_cons, ih _ hdiv]

lemma mem_natRepr (n : ℕ) : ∀ c ∈ natRepr n, c ≠ ',' ∧ c ≠ '-' := by
  intro c hc
  unfold natRepr at hc
  split at hc
  · rcases List.mem_singleton.1 hc with rfl
    exact ⟨by decide, by decide⟩
  · rw [natDigitsLE_eq_digits n n le_rfl, List.mem_reverse] at hc
    obtain ⟨d, hd, rfl⟩ := List.mem_map.1 hc
    exact digitChar_ne_comma_ne_dash d (Nat.digits_lt_base (by norm_num) hd)

lemma map_digitChar_inj : ∀ l1 l2 : List ℕ, (∀ d ∈ l1, d < 10) →
    (∀ d ∈ l2, d < 10) → l1.map digitChar = l2.map digitChar → l1 = l2 := by
  intro l1
  induction l1 with
  | nil =>
      intro l2 _ _ h
      cases l2 with
      | nil => rfl
      | cons z zs => simp at h
  | cons x xs ih =>
      intro l2 hb1 hb2 h
      cases l2 with
      | nil => simp at h
      | cons z zs =>
          simp only [List.map_cons, List.cons.injEq] at h
          have hx : x = z :=
            digitChar_injOn x (hb1 x (List.mem_cons_self x xs)) z
              (hb2 z (List.mem_cons_self z zs)) h.1
          have hxs : xs = zs :=
            ih zs (fun d hd => hb1 d (List.mem_cons_of_mem _ hd))
              (fun d hd => hb2 d (List.mem_cons_of_mem _ hd)) h.2
          rw [hx, hxs]

lemma digits_map_inj {m n : ℕ}
    (h : (Nat.digits 10 m).map digitChar = (Nat.digits 10 n).map digitChar) :
    m = n := by
  have hd : Nat.digits 10 m = Nat.digits 10 n :=
    map_digitChar_inj _ _ (fun d hd => Nat.digits_lt_base (by norm_num) hd)
      (fun d hd => Nat.digits_lt_base (by norm_num) hd) h
  have := congrArg (Nat.ofDigits 10) hd
  rwa [Nat.ofDigits_digits, Nat.ofDigits_digits] at this

lemma natRepr_inj {m n : ℕ} (h : natRepr m = natRepr n) : m = n := by
  unfold natRepr at h
  by_cases hm : m = 0 <;> by_cases hn : n = 0
  · rw [hm, hn]
  · rw [if_pos hm, if_neg hn] at h
    have h2 : (Nat.digits 10 n).map digitChar = ['0'] := by
      have := congrArg List.reverse h
      rw [List.reverse_reverse] at this
      rw [natDigitsLE_eq_digits n n le_rfl] at this
      simpa using this.symm
    have : Nat.digits 10 n = [0] :=
      map_digitChar_inj _ [0] (fun d hd => Nat.digits_lt_base (by norm_num) hd)
        (by simp) (by simpa using h2)
    have h0 := congrArg (Nat.ofDigits 10) this
    rw [Nat.ofDigits_digits] at h0
    simp [Nat.ofDigits] at h0
    omega
  · rw [if_neg hm, if_pos hn] at h
    have h2 : (Nat.digits 10 m).map digitChar = ['0'] := by
      have := congrArg List.reverse h
      rw [List.reverse_reverse, natDigitsLE_eq_digits m m le_rfl] at this
      simpa using this
    have : Nat.digits 10 m = [0] :=
      map_digitChar_inj _ [0] (fun d hd => Nat.digits_lt_base (by norm_num) hd)
        (by simp) (by simpa using h2)
    have h0 := congrArg (Nat.ofDigits 10) this
    rw [Nat.ofDigits_digits] at h0
    simp [Nat.ofDigits] at h0
    omega
  · rw [if_neg hm, if_neg hn] at h
    have := congrArg List.reverse h
    rw [List.reverse_reverse, List.reverse_reverse,
      natDigitsLE_eq_digits m m le_rfl, natDigitsLE_eq_digits n n le_rfl] at this
    exact digits_map_inj this

lemma comma_not_mem_intRepr (a : ℤ) : ',' ∉ intRepr a := by
  unfold intRepr
  split
  · intro hc
    rcases List.mem_cons.1 hc with h | h
    · exact absurd h (by decide)
    · exact (mem_natRepr _ _ h).1 rfl
  · intro hc
    exact (mem_natRepr _ _ hc).1 rfl

lemma intRepr_inj {a b : ℤ} (h : intRepr a = intRepr b) : a = b := by
  unfold intRepr at h
  by_cases ha : a < 0 <;> by_cases hb : b < 0
  · rw [if_pos ha, if_pos hb] at h
    have := natRepr_inj (List.cons.inj h).2
    omega
  · rw [if_pos ha, if_neg hb] at h
    have : '-' ∈ natRepr b.toNat := by
      rw [← h]
      exact List.mem_cons_self _ _
    exact absurd rfl (mem_natRepr _ _ this).2
  · rw [if_neg ha, if_pos hb] at h
    have : '-' ∈ natRepr a.toNat := by
      rw [h]
      exact List.mem_cons_self _ _
    exact absurd rfl (mem_natRepr _ _ this).2
  · rw [if_neg ha, if_neg hb] at h
    have := natRepr_inj h
    omega

lemma append_comma_inj : ∀ xs xs2 : List Char, ∀ ys ys2 : List Char,
    ',' ∉ xs → ',' ∉ xs2 → xs ++ ',' :: ys = xs2 ++ ',' :: ys2 →
    xs = xs2 ∧ ys = ys2 := by
  intro xs
  induction xs with
  | nil =>
      intro xs2 ys ys2 _ h2 h
      cases xs2 with
      | nil => simpa using h
      | cons z zs =>
          simp only [List.nil_append, List.cons_append, List.cons.injEq] at h
          exact absurd (h.1 ▸ List.mem_cons_self z zs) h2
  | cons x xs ih =>
      intro xs2 ys ys2 h1 h2 h
      cases xs2 with
      | nil =>
          simp only [List.cons_append, List.nil_append, List.cons.injEq] at h
          obtain ⟨rfl, -⟩ := h
          exact absurd (List.mem_cons_self ',' xs) h1
      | cons z zs =>
          simp only [List.cons_append, List.cons.injEq] at h
          obtain ⟨rfl, hrest⟩ := h
          have h1x : ',' ∉ xs := fun hc => h1 (List.mem_cons_of_mem _ hc)
          have h2z : ',' ∉ zs := fun hc => h2 (List.mem_cons_of_mem _ hc)
          obtain ⟨hx, hy⟩ := ih zs ys ys2 h1x h2z hrest
          exact ⟨by rw [hx], hy⟩

lemma keyOf_injective : Function.Injective keyOf := by
  intro p q h
  unfold keyOf at h
  have h' : intRepr p.1 ++ ',' :: intRepr p.2
      = intRepr q.1 ++ ',' :: intRepr q.2 := by
    injection h
  obtain ⟨h1, h2⟩ :=
    append_comma_inj _ _ _ _ (comma_not_mem_intRepr p.1)
      (comma_not_mem_intRepr q.1) h'
  obtain ⟨p1, p2⟩ := p
  obtain ⟨q1, q2⟩ := q
  simp only [Prod.mk.injEq]
  exact ⟨intRepr_inj h1, intRepr_inj h2⟩

lemma keyOf_mem_map {l : List Point} {p : Point} :
    keyOf p ∈ l.map keyOf ↔ p ∈ l := by
  constructor
  · intro h
    obtain ⟨q, hq, he⟩ := List.mem_map.1 h
    rwa [← keyOf_injective he]
  · exact fun h => List.mem_map_of_mem keyOf h

/-! ### Unfolding lemmas for `stepSnake` -/

lemma stepSnake_cons (head : Point) (rest : List Point) (dir : Direction)
    (food : Point) (g : ℤ) :
    stepSnake (head :: rest) dir food g =
      if hitSelfOf (head :: rest) (stepHead head dir g)
          ((head :: rest).getLast (List.cons_ne_nil head rest))
          (willEatOf (stepHead head dir g) food) then
        some { snake := head :: rest, ate := false, collision := true }
      else
        some { snake :=
                 if willEatOf (stepHead head dir g) food then
                   stepHead head dir g :: head :: rest
                 else (stepHead head dir g :: head :: rest).dropLast,
               ate := willEatOf (stepHead head dir g) food,
               collision := false } := rfl

lemma newHeadOf_cons (head : Point) (rest : List Point) (dir : Direction)
    (g : ℤ) : newHeadOf (head :: rest) dir g = stepHead head dir g := rfl

lemma willEatOf_iff {p food : Point} : willEatOf p food = true ↔ p = food := by
  simp [willEatOf, Prod.ext_iff]

lemma hitSelfOf_iff {prev : List Point} {nh tl : Point} {we : Bool} :
    hitSelfOf prev nh tl we = true ↔ nh ∈ prev ∧ (nh = tl → we = true) := by
  simp only [hitSelfOf, Bool.and_eq_true, Bool.not_eq_true', Bool.and_eq_false_iff,
    decide_eq_true_eq, decide_eq_false_iff_not, keyOf_mem_map,
    keyOf_injective.eq_iff, Bool.not_eq_true]
  constructor
  · rintro ⟨hmem, h⟩
    refine ⟨hmem, fun he => ?_⟩
    rcases h with h | h
    · exact absurd he h
    · simpa using h
  · rintro ⟨hmem, h⟩
    refine ⟨hmem, ?_⟩
    by_cases he : nh = tl
    · right
      simpa using h he
    · left
      exact he

lemma wrapCoord_bounds {g : ℤ} (hg : 1 ≤ g) (c : ℤ) :
    0 ≤ wrapCoord g c ∧ wrapCoord g c < g := by
  unfold wrapCoord
  split_ifs <;> omega

lemma inGrid_wrapPoint {g : ℤ} (hg : 1 ≤ g) (q : Point) :
    inGrid g (wrapPoint g q) := by
  obtain ⟨h1, h2⟩ := wrapCoord_bounds hg q.1
  obtain ⟨h3, h4⟩ := wrapCoord_bounds hg q.2
  exact ⟨h1, h2, h3, h4⟩

/-! ### Claim theorems about `stepSnake` -/

/-- C1: for every non-empty snake, direction, food point, and gridSize,
when `stepSnake` reports `collision = false` the returned snake is the
wrapped candidate head prepended to the input snake, with the last
element dropped exactly when `ate = false`; so the returned snake keeps
the input's length when `ate = false` and is longer by exactly one when
`ate = true`. -/
theorem stepSnake_noCollision_shape (prev : List Point) (dir : Direction)
    (food : Point) (g : ℤ) (hne : prev ≠ []) (r : StepResult)
    (hstep : stepSnake prev dir food g = some r)
    (hcol : r.collision = false) :
    r.snake = (if r.ate then newHeadOf prev dir g :: prev
               else (newHeadOf prev dir g :: prev).dropLast) ∧
    (r.ate = false → r.snake.length = prev.length) ∧
    (r.ate = true → r.snake.length = prev.length + 1) := by
  cases prev with
  | nil => exact absurd rfl hne
  | cons head rest =>
      rw [stepSnake_cons] at hstep
      split at hstep
      · obtain rfl := Option.some.inj hstep
        simp at hcol
      · obtain rfl := Option.some.inj hstep
        rw [newHeadOf_cons]
        cases hwe : willEatOf (stepHead head dir g) food <;>
          simp [hwe, List.length_dropLast]

/-- Witness for C1 at the concrete step of a 2-segment snake moving
right on the classic grid without eating. -/
theorem stepSnake_noCollision_shape_witness :
    (StepResult.mk [((0 : ℤ), (2 : ℤ)), ((0 : ℤ), (1 : ℤ))] false
        false).snake.length
      = [((0 : ℤ), (1 : ℤ)), ((0 : ℤ), (0 : ℤ))].length := by
  have h := stepSnake_noCollision_shape
    [((0 : ℤ), (1 : ℤ)), ((0 : ℤ), (0 : ℤ))] Direction.RIGHT
    ((9 : ℤ), (9 : ℤ)) 10 (by decide)
    (StepResult.mk [((0 : ℤ), (2 : ℤ)), ((0 : ℤ), (1 : ℤ))] false false)
    (by decide) rfl
  exact h.2.1 rfl

/-- C2: for a snake of length ≥ 2 whose wrapped candidate head equals
the current tail cell (and no other segment's cell), the step reports
`collision = false` when the candidate head is not the food point, and
`collision = true` when it is the food point. -/
theorem stepSnake_tail_vacate (prev : List Point) (dir : Direction)
    (food : Point) (g : ℤ) (hne : prev ≠ []) (hlen : 2 ≤ prev.length)
    (htl : newHeadOf prev dir g = prev.getLast hne)
    (hmid : ∀ q ∈ prev.dropLast, q ≠ newHeadOf prev dir g)
    (r : StepResult) (hstep : stepSnake prev dir food g = some r) :
    (newHeadOf prev dir g ≠ food → r.collision = false) ∧
    (newHeadOf prev dir g = food → r.collision = true) := by
  cases prev with
  | nil => exact absurd rfl hne
  | cons head rest =>
      rw [stepSnake_cons] at hstep
      rw [newHeadOf_cons] at htl ⊢
      constructor
      · intro hfood
        have hwe : willEatOf (stepHead head dir g) food = false := by
          rw [← Bool.not_eq_true, willEatOf_iff]
          exact hfood
        split at hstep
        · rename_i hhit
          rw [hitSelfOf_iff] at hhit
          rw [hwe] at hhit
          exact absurd (hhit.2 htl) (by simp)
        · obtain rfl := Option.some.inj hstep
          rfl
      · intro hfood
        have hwe : willEatOf (stepHead head dir g) food = true :=
          willEatOf_iff.2 hfood
        split at hstep
        · obtain rfl := Option.some.inj hstep
          rfl
        · rename_i hhit
          rw [hitSelfOf_iff] at hhit
          exact absurd ⟨htl ▸ List.getLast_mem _, fun _ => hwe⟩ hhit

/-- Witness for C2: a 4-segment square snake whose candidate head lands
on the tail cell, once with the food elsewhere and once with the food
on the tail cell. -/
theorem stepSnake_tail_vacate_witness :
    (StepResult.mk
        [((1 : ℤ), (0 : ℤ)), ((0 : ℤ), (0 : ℤ)), ((0 : ℤ), (1 : ℤ)),
          ((1 : ℤ), (1 : ℤ))] false false).collision = false ∧
    (StepResult.mk
        [((0 : ℤ), (0 : ℤ)), ((0 : ℤ), (1 : ℤ)), ((1 : ℤ), (1 : ℤ)),
          ((1 : ℤ), (0 : ℤ))] false true).collision = true := by
  constructor
  · exact (stepSnake_tail_vacate
      [((0 : ℤ), (0 : ℤ)), ((0 : ℤ), (1 : ℤ)), ((1 : ℤ), (1 : ℤ)),
        ((1 : ℤ), (0 : ℤ))] Direction.DOWN ((5 : ℤ), (5 : ℤ)) 10
      (by decide) (by decide) (by decide) (by decide)
      (StepResult.mk
        [((1 : ℤ), (0 : ℤ)), ((0 : ℤ), (0 : ℤ)), ((0 : ℤ), (1 : ℤ)),
          ((1 : ℤ), (1 : ℤ))] false false) (by decide)).1 (by decide)
  · exact (stepSnake_tail_vacate
      [((0 : ℤ), (0 : ℤ)), ((0 : ℤ), (1 : ℤ)), ((1 : ℤ), (1 : ℤ)),
        ((1 : ℤ), (0 : ℤ))] Direction.DOWN ((1 : ℤ), (0 : ℤ)) 10
      (by decide) (by decide) (by decide) (by decide)
      (StepResult.mk
        [((0 : ℤ), (0 : ℤ)), ((0 : ℤ), (1 : ℤ)), ((1 : ℤ), (1 : ℤ)),
          ((1 : ℤ), (0 : ℤ))] false true) (by decide)).2 (by decide)

/-- C3: whenever the wrapped candidate head cell is occupied by a
segment other than the current tail cell — or coincides with the tail
cell while also being the food — the step reports `collision = true`,
`ate = false`, and returns the input sequence unchanged. -/
theorem stepSnake_self_collision (prev : List Point) (dir : Direction)
    (food : Point) (g : ℤ) (hne : prev ≠ [])
    (hocc : (newHeadOf prev dir g ∈ prev ∧
              newHeadOf prev dir g ≠ prev.getLast hne) ∨
            (newHeadOf prev dir g = prev.getLast hne ∧
              newHeadOf prev dir g = food))
    (r : StepResult) (hstep : stepSnake prev dir food g = some r) :
    r.collision = true ∧ r.ate = false ∧ r.snake = prev := by
  cases prev with
  | nil => exact absurd rfl hne
  | cons head rest =>
      rw [stepSnake_cons] at hstep
      rw [newHeadOf_cons] at hocc
      split at hstep
      · obtain rfl := Option.some.inj hstep
        exact ⟨rfl, rfl, rfl⟩
      · rename_i hhit
        rw [hitSelfOf_iff] at hhit
        exfalso
        apply hhit
        rcases hocc with ⟨hmem, hnetl⟩ | ⟨htl, hfood⟩
        · exact ⟨hmem, fun he => absurd he hnetl⟩
        · exact ⟨htl ▸ List.getLast_mem _, fun _ => willEatOf_iff.2 hfood⟩

/-- Witness for C3 at the self-collision shape of the repository's own
unit test (head runs into a non-tail body segment). -/
theorem stepSnake_self_collision_witness :
    (StepResult.mk
        [((0 : ℤ), (2 : ℤ)), ((1 : ℤ), (2 : ℤ)), ((1 : ℤ), (1 : ℤ)),
          ((0 : ℤ), (1 : ℤ))] false true).collision = true ∧
    (StepResult.mk
        [((0 : ℤ), (2 : ℤ)), ((1 : ℤ), (2 : ℤ)), ((1 : ℤ), (1 : ℤ)),
          ((0 : ℤ), (1 : ℤ))] false true).snake
      = [((0 : ℤ), (2 : ℤ)), ((1 : ℤ), (2 : ℤ)), ((1 : ℤ), (1 : ℤ)),
          ((0 : ℤ), (1 : ℤ))] := by
  have h := stepSnake_self_collision
    [((0 : ℤ), (2 : ℤ)), ((1 : ℤ), (2 : ℤ)), ((1 : ℤ), (1 : ℤ)),
      ((0 : ℤ), (1 : ℤ))] Direction.DOWN ((9 : ℤ), (9 : ℤ)) 10
    (by decide) (Or.inl (by decide))
    (StepResult.mk
      [((0 : ℤ), (2 : ℤ)), ((1 : ℤ), (2 : ℤ)), ((1 : ℤ), (1 : ℤ)),
        ((0 : ℤ), (1 : ℤ))] false true) (by decide)
  exact ⟨h.1, h.2.2⟩

/-- C4: the candidate head wraps toroidally — a coordinate that would
become `-1` becomes `gridSize - 1` and one that would reach `gridSize`
becomes `0`, for all four directions off an edge — and a collision
result only ever arises because the candidate head cell is occupied by
the snake, never merely from crossing a grid boundary. -/
theorem stepSnake_wrap_torus (g : ℤ) (hg : 1 ≤ g) :
    (∀ a : ℤ, 0 ≤ a → a < g →
      stepHead (a, g - 1) Direction.RIGHT g = (a, 0) ∧
      stepHead (a, 0) Direction.LEFT g = (a, g - 1) ∧
      stepHead (0, a) Direction.UP g = (g - 1, a) ∧
      stepHead (g - 1, a) Direction.DOWN g = (0, a)) ∧
    (∀ c : ℤ,
      (c = -1 → wrapCoord g c = g - 1) ∧
      (c = g → wrapCoord g c = 0) ∧
      (0 ≤ c → c < g → wrapCoord g c = c)) ∧
    (∀ (prev : List Point) (dir : Direction) (food : Point)
        (r : StepResult), stepSnake prev dir food g = some r →
      r.collision = true → newHeadOf prev dir g ∈ prev) := by
  refine ⟨?_, ?_, ?_⟩
  · intro a h0 h1
    simp only [stepHead, moveRaw, wrapPoint, wrapCoord, Prod.mk.injEq]
    refine ⟨⟨?_, ?_⟩, ⟨?_, ?_⟩, ⟨?_, ?_⟩, ⟨?_, ?_⟩⟩ <;>
      (split_ifs <;> omega)
  · intro c
    unfold wrapCoord
    refine ⟨?_, ?_, ?_⟩
    · rintro rfl
      rw [if_pos (by omega)]
    · rintro rfl
      rw [if_neg (by omega), if_pos le_rfl]
    · intro h0 h1
      rw [if_neg (by omega), if_neg (by omega)]
  · intro prev dir food r hstep hcol
    cases prev with
    | nil => simp [stepSnake] at hstep
    | cons head rest =>
        rw [stepSnake_cons] at hstep
        rw [newHeadOf_cons]
        split at hstep
        · rename_i hhit
          rw [hitSelfOf_iff] at hhit
          exact hhit.1
        · obtain rfl := Option.some.inj hstep
          simp at hcol

/-- Witness for C4 on the classic 10-grid: edge wraps at row 3, the
single-coordinate wrap facts, and the collision-only-from-occupancy
fact at the unit test's self-collision shape. -/
theorem stepSnake_wrap_torus_witness :
    stepHead ((3 : ℤ), (9 : ℤ)) Direction.RIGHT 10 = (3, 0) ∧
    wrapCoord 10 (-1) = 9 ∧
    ((1 : ℤ), (2 : ℤ)) ∈
      [((0 : ℤ), (2 : ℤ)), ((1 : ℤ), (2 : ℤ)), ((1 : ℤ), (1 : ℤ)),
        ((0 : ℤ), (1 : ℤ))] := by
  have h := stepSnake_wrap_torus 10 (by norm_num)
  refine ⟨?_, ?_, ?_⟩
  · exact (h.1 3 (by norm_num) (by norm_num)).1
  · have := (h.2.1 (-1)).1 rfl
    norm_num at this ⊢
    exact this
  · exact h.2.2
      [((0 : ℤ), (2 : ℤ)), ((1 : ℤ), (2 : ℤ)), ((1 : ℤ), (1 : ℤ)),
        ((0 : ℤ), (1 : ℤ))] Direction.DOWN ((9 : ℤ), (9 : ℤ))
      (StepResult.mk
        [((0 : ℤ), (2 : ℤ)), ((1 : ℤ), (2 : ℤ)), ((1 : ℤ), (1 : ℤ)),
          ((0 : ℤ), (1 : ℤ))] false true)
      (by decide) (by decide)

/-- C9: on a grid of size at least 2, if every point of the input snake
lies inside the grid then every point of the snake returned by
`stepSnake` (collision or not) lies inside the grid. -/
theorem stepSnake_preserves_inGrid (prev : List Point) (dir : Direction)
    (food : Point) (g : ℤ) (hg : 2 ≤ g)
    (hprev : ∀ p ∈ prev, inGrid g p) (r : StepResult)
    (hstep : stepSnake prev dir food g = some r) :
    ∀ p ∈ r.snake, inGrid g p := by
  cases prev with
  | nil => simp [stepSnake] at hstep
  | cons head rest =>
      rw [stepSnake_cons] at hstep
      split at hstep
      · obtain rfl := Option.some.inj hstep
        exact hprev
      · obtain rfl := Option.some.inj hstep
        intro p hp
        simp only at hp
        have hcons : p ∈ stepHead head dir g :: head :: rest := by
          split at hp
          · exact hp
          · exact List.dropLast_subset _ hp
        rcases List.mem_cons.1 hcons with rfl | hmem
        · exact inGrid_wrapPoint (by omega) _
        · exact hprev p hmem

/-- Witness for C9 at a concrete eating step on the classic grid: the
new head of the grown snake is in the grid. -/
theorem stepSnake_preserves_inGrid_witness :
    inGrid 10 (((0 : ℤ), (2 : ℤ)) : Point) := by
  exact stepSnake_preserves_inGrid
    [((0 : ℤ), (1 : ℤ)), ((0 : ℤ), (0 : ℤ))] Direction.RIGHT
    ((0 : ℤ), (2 : ℤ)) 10 (by norm_num) (by decide)
    (StepResult.mk
      [((0 : ℤ), (2 : ℤ)), ((0 : ℤ), (1 : ℤ)), ((0 : ℤ), (0 : ℤ))]
      true false) (by decide) ((0 : ℤ), (2 : ℤ)) (by decide)

/-! ### Food placement -/

lemma randLoop_ok_not_mem (exclude : Finset String) :
    ∀ (draws : List Point) (p : Point),
      randLoop exclude draws = Except.ok p → keyOf p ∉ exclude := by
  intro draws
  induction draws with
  | nil =>
      intro p h
      simp [randLoop] at h
  | cons q rest ih =>
      intro p h
      rw [randLoop] at h
      split at h
      · exact ih p h
      · obtain rfl := Except.ok.inj h
        assumption

lemma randLoop_ok_mem (exclude : Finset String) :
    ∀ (draws : List Point) (p : Point),
      randLoop exclude draws = Except.ok p → p ∈ draws := by
  intro draws
  induction draws with
  | nil =>
      intro p h
      simp [randLoop] at h
  | cons q rest ih =>
      intro p h
      rw [randLoop] at h
      split at h
      · exact List.mem_cons_of_mem _ (ih p h)
      · obtain rfl := Except.ok.inj h
        exact List.mem_cons_self _ _

/-- C6: `randPointExcluding` reports the explicit "no available points"
error whenever `exclude.size ≥ gridSize²`, irrespective of the random
stream (so before any draw is consumed), and any point it does return
has a key outside the excluded set. -/
theorem randPointExcluding_props (exclude : Finset String)
    (gridSize : ℕ) (draws : List Point) :
    (gridSize * gridSize ≤ exclude.card →
      randPointExcluding exclude gridSize draws
        = Except.error "No available points to place food") ∧
    (∀ p, randPointExcluding exclude gridSize draws = Except.ok p →
      keyOf p ∉ exclude) := by
  constructor
  · intro h
    rw [randPointExcluding, if_pos h]
  · intro p hp
    rw [randPointExcluding] at hp
    split at hp
    · exact absurd hp (by simp)
    · exact randLoop_ok_not_mem exclude draws p hp

/-- Witness for C6: the full 1×1 grid rejects placement, and on an
empty exclusion set the returned point's key is not excluded. -/
theorem randPointExcluding_props_witness :
    randPointExcluding {keyOf ((0 : ℤ), (0 : ℤ))} 1 []
        = Except.error "No available points to place food" ∧
    keyOf ((0 : ℤ), (0 : ℤ)) ∉ (∅ : Finset String) := by
  constructor
  · exact (randPointExcluding_props {keyOf ((0 : ℤ), (0 : ℤ))} 1 []).1
      (by simp)
  · exact (randPointExcluding_props (∅ : Finset String) 1
      [((0 : ℤ), (0 : ℤ))]).2 ((0 : ℤ), (0 : ℤ)) (by rfl)

lemma gridPoints_card (g : ℕ) : (gridPoints g).card = g * g := by
  rw [gridPoints, Finset.card_image_of_injective, Finset.card_product,
    Finset.card_range]
  intro a b h
  simp only [Prod.mk.injEq] at h
  obtain ⟨a1, a2⟩ := a
  obtain ⟨b1, b2⟩ := b
  simp only [Prod.mk.injEq]
  exact_mod_cast h

lemma randLoop_unique_free (g : ℕ) (free : Point)
    (hfree : free ∈ gridPoints g) :
    ∀ draws : List Point, (∀ q ∈ draws, q ∈ gridPoints g) →
      free ∈ draws →
      randLoop (((gridPoints g).image keyOf).erase (keyOf free)) draws
        = Except.ok free := by
  intro draws
  induction draws with
  | nil =>
      intro _ h
      simp at h
  | cons q rest ih =>
      intro hdr hmem
      rw [randLoop]
      split
      · rename_i hq
        have hqf : q ≠ free := by
          rintro rfl
          exact Finset.not_mem_erase _ _ hq
        have hfr : free ∈ rest := by
          rcases List.mem_cons.1 hmem with h | h
          · exact absurd h.symm hqf
          · exact h
        exact ih (fun x hx => hdr x (List.mem_cons_of_mem _ hx)) hfr
      · rename_i hq
        have hqi : keyOf q ∈ (gridPoints g).image keyOf :=
          Finset.mem_image_of_mem _ (hdr q (List.mem_cons_self _ _))
        have hkey : keyOf q = keyOf free := by
          by_contra hne
          exact hq (Finset.mem_erase.2 ⟨hne, hqi⟩)
        rw [keyOf_injective hkey]

/-- C7: when the excluded set holds the keys of every grid cell except
one, `randPointExcluding` can only return that free cell — any `ok`
result equals it, and in particular as soon as the random stream (of
in-grid draws) produces the free cell, it is returned. -/
theorem randPointExcluding_unique_free (g : ℕ) (free : Point)
    (draws : List Point) (hfree : free ∈ gridPoints g)
    (hdraws : ∀ q ∈ draws, q ∈ gridPoints g) :
    (∀ p, randPointExcluding
        (((gridPoints g).image keyOf).erase (keyOf free)) g draws
        = Except.ok p → p = free) ∧
    (free ∈ draws →
      randPointExcluding
        (((gridPoints g).image keyOf).erase (keyOf free)) g draws
        = Except.ok free) := by
  have hcard : (((gridPoints g).image keyOf).erase (keyOf free)).card
      = g * g - 1 := by
    rw [Finset.card_erase_of_mem (Finset.mem_image_of_mem keyOf hfree),
      Finset.card_image_of_injective _ keyOf_injective, gridPoints_card]
  have hpos : 0 < g * g := by
    have h1 : 0 < (gridPoints g).card := Finset.card_pos.2 ⟨free, hfree⟩
    rwa [gridPoints_card] at h1
  have hlt : ¬ (g * g ≤
      (((gridPoints g).image keyOf).erase (keyOf free)).card) := by
    rw [hcard]
    omega
  constructor
  · intro p hp
    rw [randPointExcluding, if_neg hlt] at hp
    have hpd := randLoop_ok_mem _ draws p hp
    have hpk := randLoop_ok_not_mem _ draws p hp
    have hpi : keyOf p ∈ (gridPoints g).image keyOf :=
      Finset.mem_image_of_mem _ (hdraws p hpd)
    have hkey : keyOf p = keyOf free := by
      by_contra hne
      exact hpk (Finset.mem_erase.2 ⟨hne, hpi⟩)
    exact keyOf_injective hkey
  · intro hmem
    rw [randPointExcluding, if_neg hlt]
    exact randLoop_unique_free g free hfree draws hdraws hmem

/-- Witness for C7: the repository's own unit-test scenario — a 4×4
grid with every cell but `(3,2)` excluded always yields `(3,2)`. -/
theorem randPointExcluding_unique_free_witness :
    randPointExcluding
        (((gridPoints 4).image keyOf).erase (keyOf ((3 : ℤ), (2 : ℤ))))
        4 [((1 : ℤ), (1 : ℤ)), ((3 : ℤ), (2 : ℤ))]
      = Except.ok ((3 : ℤ), (2 : ℤ)) := by
  exact (randPointExcluding_unique_free 4 ((3 : ℤ), (2 : ℤ))
    [((1 : ℤ), (1 : ℤ)), ((3 : ℤ), (2 : ℤ))] (by decide) (by decide)).2
    (by decide)

/-! ### The speed-up curve -/

lemma nextMsPerTick_lb (x : ℚ) : 40 ≤ nextMsPerTick x :=
  le_max_left _ _

lemma nextMsPerTick_le_self {x : ℚ} (h : 40 ≤ x) : nextMsPerTick x ≤ x := by
  unfold nextMsPerTick
  apply max_le h
  nlinarith

lemma iterate_nextMsPerTick_lb (x : ℚ) (h : 40 ≤ x) :
    ∀ n : ℕ, 40 ≤ nextMsPerTick^[n] x := by
  intro n
  cases n with
  | zero => exact h
  | succ n =>
      rw [Function.iterate_succ_apply']
      exact nextMsPerTick_lb _

/-- C8: on each eaten food the driver replaces the tick interval `x`
by `max 40 (x * 0.95)`: the interval never falls below the 40 ms floor,
each update does not increase it, and iterating updates over a game
yields a monotonically non-increasing interval. -/
theorem nextMsPerTick_props (ms : ℚ) (h : 40 ≤ ms) :
    40 ≤ nextMsPerTick ms ∧ nextMsPerTick ms ≤ ms ∧
    ∀ n m : ℕ, n ≤ m → nextMsPerTick^[m] ms ≤ nextMsPerTick^[n] ms := by
  refine ⟨nextMsPerTick_lb ms, nextMsPerTick_le_self h, ?_⟩
  intro n m hnm
  obtain ⟨k, rfl⟩ := Nat.exists_eq_add_of_le hnm
  clear hnm
  induction k with
  | zero => exact le_rfl
  | succ k ih =>
      calc nextMsPerTick^[n + (k + 1)] ms
          = nextMsPerTick (nextMsPerTick^[n + k] ms) :=
            Function.iterate_succ_apply' _ _ _
        _ ≤ nextMsPerTick^[n + k] ms :=
            nextMsPerTick_le_self (iterate_nextMsPerTick_lb ms h _)
        _ ≤ nextMsPerTick^[n] ms := ih

/-- Witness for C8 at the normal preset's base interval of 200 ms. -/
theorem nextMsPerTick_props_witness :
    40 ≤ nextMsPerTick (SPEED_LEVELS SpeedLabel.normal) ∧
    nextMsPerTick (SPEED_LEVELS SpeedLabel.normal)
      ≤ SPEED_LEVELS SpeedLabel.normal := by
  have h := nextMsPerTick_props (SPEED_LEVELS SpeedLabel.normal)
    (by norm_num [SPEED_LEVELS])
  exact ⟨h.1, h.2.1⟩

/-! ### Reset -/

/-- C5 counterexample: `reset` always restores the `normal` base
interval of 200 ms; when the currently selected preset is `slow`
(base 300 ms), the interval after reset is not the selected preset's
base interval. -/
theorem reset_speed_counterexample :
    (reset 10 []).msPerTick = 200 ∧
    SPEED_LEVELS SpeedLabel.slow = 300 ∧
    (reset 10 []).msPerTick ≠ SPEED_LEVELS SpeedLabel.slow := by
  refine ⟨rfl, rfl, ?_⟩
  norm_num [reset, SPEED_LEVELS]

/-- C5 (amended): every reset recreates the initial GameState — the
fixed 3-segment snake, direction `RIGHT`, score 0, `gameOver` cleared,
food freshly placed by `randPointExcluding` away from the snake's
cells — but the tick interval is set to the `normal` preset's base of
200 ms regardless of the currently selected speed preset. -/
theorem reset_recreates_initial_state (g : ℕ) (draws : List Point) :
    (reset g draws).snake = INITIAL_SNAKE ∧
    (reset g draws).direction = Direction.RIGHT ∧
    (reset g draws).score = 0 ∧
    (reset g draws).gameOver = false ∧
    (reset g draws).msPerTick = SPEED_LEVELS SpeedLabel.normal ∧
    (reset g draws).msPerTick = 200 ∧
    (reset g draws).food
      = randPointExcluding (INITIAL_SNAKE.map keyOf).toFinset g draws ∧
    ∀ p, (reset g draws).food = Except.ok p → p ∉ INITIAL_SNAKE := by
  refine ⟨rfl, rfl, rfl, rfl, rfl, rfl, rfl, ?_⟩
  intro p hp
  have hkey : keyOf p ∉ (INITIAL_SNAKE.map keyOf).toFinset :=
    (randPointExcluding_props _ g draws).2 p hp
  intro hmem
  exact hkey (List.mem_toFinset.2 (List.mem_map_of_mem keyOf hmem))

/-- Witness for C5's amended statement: reset on the classic grid with
a draw at `(5,5)` places the food there, off the initial snake. -/
theorem reset_recreates_initial_state_witness :
    (reset 10 [((5 : ℤ), (5 : ℤ))]).msPerTick = 200 ∧
    (((5 : ℤ), (5 : ℤ)) : Point) ∉ INITIAL_SNAKE := by
  have h := reset_recreates_initial_state 10 [((5 : ℤ), (5 : ℤ))]
  exact ⟨h.2.2.2.2.2.1, h.2.2.2.2.2.2.2 ((5 : ℤ), (5 : ℤ)) (by rfl)⟩

/-! ### Faithfulness of the string keys -/

/-- C10: on points with non-negative coordinates (and in fact on all
integer points), `keyOf` keys agree exactly when the points agree, so
key-set membership — as used by the occupancy test of `stepSnake` and
the exclusion test of `randPointExcluding` — coincides with point
membership. -/
theorem keyOf_faithful :
    (∀ p q : Point, 0 ≤ p.1 → 0 ≤ p.2 → 0 ≤ q.1 → 0 ≤ q.2 →
      (keyOf p = keyOf q ↔ p = q)) ∧
    (∀ (l : List Point) (p : Point), keyOf p ∈ l.map keyOf ↔ p ∈ l) ∧
    (∀ (l : List Point) (p : Point),
      keyOf p ∈ (l.map keyOf).toFinset ↔ p ∈ l) := by
  refine ⟨?_, ?_, ?_⟩
  · intro p q _ _ _ _
    exact ⟨fun h => keyOf_injective h, fun h => h ▸ rfl⟩
  · intro l p
    exact keyOf_mem_map
  · intro l p
    rw [List.mem_toFinset]
    exact keyOf_mem_map

/-- Witness for C10: distinct points whose coordinate digits
concatenate identically still get distinct keys. -/
theorem keyOf_faithful_witness :
    (keyOf ((12 : ℤ), (3 : ℤ)) = keyOf ((1 : ℤ), (23 : ℤ)) ↔
      (((12 : ℤ), (3 : ℤ)) : Point) = ((1 : ℤ), (23 : ℤ))) ∧
    (keyOf ((0 : ℤ), (1 : ℤ)) ∈
        [((0 : ℤ), (2 : ℤ)), ((0 : ℤ), (1 : ℤ))].map keyOf ↔
      (((0 : ℤ), (1 : ℤ)) : Point) ∈
        [((0 : ℤ), (2 : ℤ)), ((0 : ℤ), (1 : ℤ))]) := by
  constructor
  · exact keyOf_faithful.1 ((12 : ℤ), (3 : ℤ)) ((1 : ℤ), (23 : ℤ))
      (by norm_num) (by norm_num) (by norm_num) (by norm_num)
  · exact keyOf_faithful.2.1 _ _

end Snake
